import Mathlib

/-!
# Verification of the Telegram escrow bot's ledger core

Shallow embedding of the escrow ledger, deal state machine, withdrawal
workflow, deposit-approval workflow and dispute resolution of
`src/bot.py` / `src/models.py`.  Money amounts are modelled as exact
rationals (the source uses Python floats for two-decimal currency
arithmetic); account/deal/withdrawal records mirror the SQLAlchemy
models, and each handler of `bot.py` that touches balances becomes a
pure function on an explicit `EscrowState`.  Guard failures that make
the Python handler return without committing become the identity on the
state.
-/

namespace EscrowBot

/-- Deal status strings of `models.DealStatus`. -/
inductive DealStatus where
  | pending
  | accepted
  | funded
  | delivered
  | completed
  | disputed
  | cancelled
  deriving DecidableEq, Repr

/-- Withdrawal status strings of `models.WithdrawalStatus`. -/
inductive WithdrawalStatus where
  | pending
  | approved
  | completed
  | rejected
  deriving DecidableEq, Repr

/-- The money-bearing fields of `models.User` (`balance`,
`escrowed_amount`). -/
structure UserAcct where
  balance : ℚ
  escrowed_amount : ℚ
  deriving DecidableEq, Repr

/-- `models.User.available_balance`: `self.balance - self.escrowed_amount`. -/
def available_balance (u : UserAcct) : ℚ :=
  u.balance - u.escrowed_amount

/-- The fields of `models.Deal` that the ledger logic reads or writes. -/
structure DealRec where
  buyer_id : Nat
  seller_id : Nat
  amount : ℚ
  status : DealStatus
  deriving DecidableEq, Repr

/-- The fields of `models.WithdrawalRequest` that the ledger logic
reads or writes. -/
structure WdRec where
  user_id : Nat
  amount : ℚ
  status : WithdrawalStatus
  deriving DecidableEq, Repr

/-- The fields of `models.Transaction` that the ledger logic reads or
writes (the crypto kind of a deposit appears only inside the free-text
`description`, exactly as in `admin_approve_deposit`). -/
structure Txn where
  user_id : Nat
  amount : ℚ
  transaction_type : String
  status : String
  description : String
  deriving DecidableEq, Repr

/-- The persistent state the handlers of `bot.py` mutate: user rows
(keyed by `User.id`), deal rows and withdrawal rows (keyed here by
creation index), and the append-only transaction table. -/
structure EscrowState where
  users : Nat → UserAcct
  deals : List DealRec
  withdrawals : List WdRec
  transactions : List Txn

/-- Pointwise update of one user row. -/
def updUser (f : Nat → UserAcct) (i : Nat) (g : UserAcct → UserAcct) :
    Nat → UserAcct :=
  fun j => if j = i then g (f j) else f j

/-- `calculate_fee` (bot.py:76-81): flat $5 under $100, else 5%. -/
def calculate_fee (amount : ℚ) : ℚ :=
  if amount < 100 then 5 else amount * (5 / 100)

/-- `process_deal_creation` (bot.py:1790-1845): validates
`1 ≤ amount ≤ 50000` and inserts a new Pending deal; on validation
failure nothing is committed. -/
def create_deal (s : EscrowState) (buyer_id seller_id : Nat) (amount : ℚ) :
    EscrowState :=
  if amount < 1 ∨ 50000 < amount then s
  else
    { s with deals := s.deals ++ [⟨buyer_id, seller_id, amount, .pending⟩] }

/-- `accept_deal` (bot.py:1155-1247): the seller accepts a Pending deal;
if the buyer's balance covers `amount + fee` the deal becomes Funded,
the buyer pays `amount + fee` out of balance, only `amount` enters
escrow (the fee is retained untracked), and one `escrow_funded`
Transaction is logged; otherwise nothing changes. -/
def accept_deal (s : EscrowState) (user_id di : Nat) : EscrowState :=
  match s.deals.get? di with
  | none => s
  | some deal =>
    if deal.seller_id = user_id ∧ deal.status = .pending then
      if deal.amount + calculate_fee deal.amount ≤
          (s.users deal.buyer_id).balance then
        { s with
          deals := s.deals.set di { deal with status := .funded },
          users := updUser s.users deal.buyer_id fun b =>
            { b with
              balance := b.balance - (deal.amount + calculate_fee deal.amount),
              escrowed_amount := b.escrowed_amount + deal.amount },
          transactions := s.transactions ++
            [⟨deal.buyer_id, deal.amount + calculate_fee deal.amount,
              "escrow_funded", "completed", ""⟩] }
      else s
    else s

/-- `decline_deal` (bot.py:1273-1295): the seller declines a Pending
deal; no money moves. -/
def decline_deal (s : EscrowState) (user_id di : Nat) : EscrowState :=
  match s.deals.get? di with
  | none => s
  | some deal =>
    if deal.seller_id = user_id ∧ deal.status = .pending then
      { s with deals := s.deals.set di { deal with status := .cancelled } }
    else s

/-- `mark_delivered` (bot.py:1430-1456): the seller marks a Funded deal
Delivered; no money moves. -/
def mark_delivered (s : EscrowState) (user_id di : Nat) : EscrowState :=
  match s.deals.get? di with
  | none => s
  | some deal =>
    if deal.seller_id = user_id ∧ deal.status = .funded then
      { s with deals := s.deals.set di { deal with status := .delivered } }
    else s

/-- `release_payment` (bot.py:1503-1532): the buyer releases a Delivered
deal; `amount` leaves the buyer's escrow and is credited to the seller's
balance.  No Transaction record is created. -/
def release_payment (s : EscrowState) (user_id di : Nat) : EscrowState :=
  match s.deals.get? di with
  | none => s
  | some deal =>
    if deal.buyer_id = user_id ∧ deal.status = .delivered then
      { s with
        deals := s.deals.set di { deal with status := .completed },
        users := updUser
          (updUser s.users deal.buyer_id fun b =>
            { b with escrowed_amount := b.escrowed_amount - deal.amount })
          deal.seller_id fun se =>
            { se with balance := se.balance + deal.amount } }
    else s

/-- `dispute_deal_prompt` (bot.py:1581-1604): the buyer disputes a
Delivered deal; funds stay escrowed. -/
def dispute_deal (s : EscrowState) (user_id di : Nat) : EscrowState :=
  match s.deals.get? di with
  | none => s
  | some deal =>
    if deal.buyer_id = user_id ∧ deal.status = .delivered then
      { s with deals := s.deals.set di { deal with status := .disputed } }
    else s

/-- `resolve_dispute_favor_buyer` (bot.py:4456-4467): on a Disputed deal
the admin sets it Completed and adds `amount` to the buyer's balance.
The buyer's `escrowed_amount` is NOT decremented and no Transaction is
logged — this mirrors the source exactly. -/
def resolve_dispute_favor_buyer (s : EscrowState) (di : Nat) : EscrowState :=
  match s.deals.get? di with
  | none => s
  | some deal =>
    if deal.status = .disputed then
      { s with
        deals := s.deals.set di { deal with status := .completed },
        users := updUser s.users deal.buyer_id fun b =>
          { b with balance := b.balance + deal.amount } }
    else s

/-- `resolve_dispute_favor_seller` (bot.py:4498-4507): on a Disputed
deal the admin sets it Completed; no balance or escrow field changes at
all ("Funds were already escrowed, just mark as completed"). -/
def resolve_dispute_favor_seller (s : EscrowState) (di : Nat) : EscrowState :=
  match s.deals.get? di with
  | none => s
  | some deal =>
    if deal.status = .disputed then
      { s with deals := s.deals.set di { deal with status := .completed } }
    else s

/-- `resolve_dispute_split` (bot.py:4538-4552): on a Disputed deal the
admin sets it Completed and adds `amount / 2` to the buyer's balance.
Escrow is not decremented and the seller is not credited — this mirrors
the source exactly. -/
def resolve_dispute_split (s : EscrowState) (di : Nat) : EscrowState :=
  match s.deals.get? di with
  | none => s
  | some deal =>
    if deal.status = .disputed then
      { s with
        deals := s.deals.set di { deal with status := .completed },
        users := updUser s.users deal.buyer_id fun b =>
          { b with balance := b.balance + deal.amount / 2 } }
    else s

/-- The withdrawal-request flow: `process_withdrawal_amount`
(bot.py:2701-2724) rejects `amount < 10` and `amount > balance`;
`process_withdrawal_address` (bot.py:2757-2805) re-checks
`balance < amount`, then moves `amount` from balance to
`escrowed_amount` and inserts a Pending WithdrawalRequest.  No
Transaction record is created for the reservation. -/
def request_withdrawal (s : EscrowState) (user_id : Nat) (amount : ℚ) :
    EscrowState :=
  if amount < 10 then s
  else if (s.users user_id).balance < amount then s
  else
    { s with
      users := updUser s.users user_id fun u =>
        { u with
          balance := u.balance - amount,
          escrowed_amount := u.escrowed_amount + amount },
      withdrawals := s.withdrawals ++ [⟨user_id, amount, .pending⟩] }

/-- Outcome reported by `confirm_withdrawal` via `query.answer` /
the edited admin message. -/
inductive WdResult where
  | notFound
  | alreadyCompleted
  | alreadyProcessed
  | insufficientEscrow
  | ok
  deriving DecidableEq, Repr

/-- `confirm_withdrawal` (bot.py:4622-4678): idempotent confirm of a
withdrawal payout.  Completed → report "already completed"; any other
non-Pending status → report "already processed"; otherwise requires
`escrowed_amount ≥ amount`, decrements only `escrowed_amount`, sets the
request Completed and logs one negative-amount `withdrawal`
Transaction. -/
def confirm_withdrawal (s : EscrowState) (wi : Nat) :
    EscrowState × WdResult :=
  match s.withdrawals.get? wi with
  | none => (s, .notFound)
  | some w =>
    if w.status = .completed then (s, .alreadyCompleted)
    else if ¬ w.status = .pending then (s, .alreadyProcessed)
    else if (s.users w.user_id).escrowed_amount < w.amount then
      (s, .insufficientEscrow)
    else
      ({ s with
         withdrawals := s.withdrawals.set wi { w with status := .completed },
         users := updUser s.users w.user_id fun u =>
           { u with escrowed_amount := u.escrowed_amount - w.amount },
         transactions := s.transactions ++
           [⟨w.user_id, -w.amount, "withdrawal", "completed",
             "Withdrawal to crypto address"⟩] },
       .ok)

/-- `reject_withdrawal` (bot.py:4716-4757): idempotent reject of a
withdrawal request.  Non-Pending → no-op; otherwise requires
`escrowed_amount ≥ amount` and moves `amount` from `escrowed_amount`
back to `balance`.  No Transaction record is created. -/
def reject_withdrawal (s : EscrowState) (wi : Nat) :
    EscrowState × WdResult :=
  match s.withdrawals.get? wi with
  | none => (s, .notFound)
  | some w =>
    if w.status = .rejected then (s, .alreadyProcessed)
    else if ¬ w.status = .pending then (s, .alreadyProcessed)
    else if (s.users w.user_id).escrowed_amount < w.amount then
      (s, .insufficientEscrow)
    else
      ({ s with
         withdrawals := s.withdrawals.set wi { w with status := .rejected },
         users := updUser s.users w.user_id fun u =>
           { u with
             escrowed_amount := u.escrowed_amount - w.amount,
             balance := u.balance + w.amount } },
       .ok)

/-- Outcome reported by `admin_approve_deposit`. -/
inductive DepResult where
  | alreadyProcessed
  | credited
  deriving DecidableEq, Repr

/-- `admin_approve_deposit` (bot.py:3002-3042): if a completed `deposit`
Transaction for the same `(user_id, amount)` already exists the approval
is rejected as already processed — the crypto kind is NOT part of the
lookup, it only appears in the free-text description of the Transaction
that a successful approval appends after crediting `balance`. -/
def admin_approve_deposit (s : EscrowState) (user_id : Nat) (amount : ℚ)
    (crypto : String) : EscrowState × DepResult :=
  if s.transactions.any fun t =>
      decide (t.user_id = user_id ∧ t.amount = amount ∧
        t.transaction_type = "deposit" ∧ t.status = "completed") then
    (s, .alreadyProcessed)
  else
    ({ s with
       users := updUser s.users user_id fun u =>
         { u with balance := u.balance + amount },
       transactions := s.transactions ++
         [⟨user_id, amount, "deposit", "completed",
           "Deposit via " ++ crypto⟩] },
     .credited)

/-! ## Reachable states

A fresh system: every user row starts with zero balance and zero
escrow (`models.User` defaults), no deals, no withdrawal requests, no
transactions. -/

/-- The initial state: all-zero accounts, empty tables. -/
def initState : EscrowState :=
  ⟨fun _ => ⟨0, 0⟩, [], [], []⟩

/-- One user/admin action, as dispatched by the bot's callback
handlers.  The side conditions on `approveDeposit` reflect the amount
validation of the deposit flow (`bot.py:1926-1944`: amounts outside
`[10, 10000]` are rejected before the admin approval button for that
amount can ever be produced). -/
inductive Step : EscrowState → EscrowState → Prop where
  | createDeal (s : EscrowState) (b se : Nat) (a : ℚ) :
      Step s (create_deal s b se a)
  | acceptDeal (s : EscrowState) (u di : Nat) : Step s (accept_deal s u di)
  | declineDeal (s : EscrowState) (u di : Nat) : Step s (decline_deal s u di)
  | markDelivered (s : EscrowState) (u di : Nat) :
      Step s (mark_delivered s u di)
  | releasePayment (s : EscrowState) (u di : Nat) :
      Step s (release_payment s u di)
  | disputeDeal (s : EscrowState) (u di : Nat) : Step s (dispute_deal s u di)
  | resolveFavorBuyer (s : EscrowState) (di : Nat) :
      Step s (resolve_dispute_favor_buyer s di)
  | resolveFavorSeller (s : EscrowState) (di : Nat) :
      Step s (resolve_dispute_favor_seller s di)
  | resolveSplit (s : EscrowState) (di : Nat) :
      Step s (resolve_dispute_split s di)
  | requestWithdrawal (s : EscrowState) (u : Nat) (a : ℚ) :
      Step s (request_withdrawal s u a)
  | confirmWithdrawal (s : EscrowState) (wi : Nat) :
      Step s (confirm_withdrawal s wi).1
  | rejectWithdrawal (s : EscrowState) (wi : Nat) :
      Step s (reject_withdrawal s wi).1
  | approveDeposit (s : EscrowState) (u : Nat) (a : ℚ) (c : String)
      (hlo : 10 ≤ a) (hhi : a ≤ 10000) :
      Step s (admin_approve_deposit s u a c).1

/-- States reachable from the fresh system by any sequence of
operations. -/
inductive Reachable : EscrowState → Prop where
  | init : Reachable initState
  | step {s t : EscrowState} : Reachable s → Step s t → Reachable t

/-! ## The ledger invariant -/

/-- Escrow obligation a single deal imposes on user `u`: a Funded or
Delivered deal holds `amount` of its buyer's `escrowed_amount`. -/
def dealOb (u : Nat) (d : DealRec) : ℚ :=
  if d.buyer_id = u ∧ (d.status = .funded ∨ d.status = .delivered) then
    d.amount
  else 0

/-- Escrow obligation a withdrawal request imposes on user `u`: a
Pending request holds `amount` of its owner's `escrowed_amount`. -/
def wdOb (u : Nat) (w : WdRec) : ℚ :=
  if w.user_id = u ∧ w.status = .pending then w.amount else 0

/-- Total tracked escrow obligation of user `u` in state `s`. -/
def escrowOb (s : EscrowState) (u : Nat) : ℚ :=
  (s.deals.map (dealOb u)).sum + (s.withdrawals.map (wdOb u)).sum

/-- The inductive ledger invariant: balances are nonnegative, each
user's `escrowed_amount` covers the tracked obligations against it, and
all recorded amounts are nonnegative. -/
structure Inv (s : EscrowState) : Prop where
  bal : ∀ u, 0 ≤ (s.users u).balance
  esc : ∀ u, escrowOb s u ≤ (s.users u).escrowed_amount
  dealAmt : ∀ d ∈ s.deals, 0 ≤ d.amount
  wdAmt : ∀ w ∈ s.withdrawals, 0 ≤ w.amount

/-! ### List-sum bookkeeping lemmas -/

theorem sum_map_set {α : Type} (f : α → ℚ) :
    ∀ (l : List α) (i : Nat) (d d' : α), l.get? i = some d →
      ((l.set i d').map f).sum = (l.map f).sum - f d + f d' := by
  intro l
  induction l with
  | nil => intro i d d' h; simp at h
  | cons a t ih =>
    intro i d d' h
    cases i with
    | zero =>
      simp only [List.get?] at h
      cases h
      simp only [List.set, List.map, List.sum_cons]
      ring
    | succ n =>
      simp only [List.get?] at h
      simp only [List.set, List.map, List.sum_cons, ih n d d' h]
      ring

theorem le_sum_map_of_get? {α : Type} (f : α → ℚ) :
    ∀ (l : List α) (i : Nat) (d : α), l.get? i = some d →
      (∀ x ∈ l, 0 ≤ f x) → f d ≤ (l.map f).sum := by
  intro l
  induction l with
  | nil => intro i d h; simp at h
  | cons a t ih =>
    intro i d h h0
    cases i with
    | zero =>
      simp only [List.get?] at h
      cases h
      have : 0 ≤ (t.map f).sum := by
        apply List.sum_nonneg
        intro x hx
        rcases List.mem_map.mp hx with ⟨y, hy, rfl⟩
        exact h0 y (List.mem_cons_of_mem _ hy)
      simp only [List.map, List.sum_cons]
      linarith
    | succ n =>
      simp only [List.get?] at h
      have ht := ih n d h fun x hx => h0 x (List.mem_cons_of_mem _ hx)
      have ha : 0 ≤ f a := h0 a (List.mem_cons_self a t)
      simp only [List.map, List.sum_cons]
      linarith

theorem sum_map_nonneg {α : Type} (f : α → ℚ) (l : List α)
    (h : ∀ x ∈ l, 0 ≤ f x) : 0 ≤ (l.map f).sum := by
  apply List.sum_nonneg
  intro x hx
  rcases List.mem_map.mp hx with ⟨y, hy, rfl⟩
  exact h y hy

theorem mem_of_get?_some {α : Type} :
    ∀ (l : List α) (i : Nat) (d : α), l.get? i = some d → d ∈ l := by
  intro l
  induction l with
  | nil => intro i d h; simp at h
  | cons a t ih =>
    intro i d h
    cases i with
    | zero =>
      simp only [List.get?] at h
      cases h
      exact List.mem_cons_self a t
    | succ n =>
      simp only [List.get?] at h
      exact List.mem_cons_of_mem _ (ih n d h)

theorem mem_set_cases {α : Type} :
    ∀ (l : List α) (i : Nat) (d' x : α), x ∈ l.set i d' → x ∈ l ∨ x = d' := by
  intro l
  induction l with
  | nil => intro i d' x h; simp [List.set] at h
  | cons a t ih =>
    intro i d' x h
    cases i with
    | zero =>
      simp only [List.set] at h
      rcases List.mem_cons.mp h with h1 | h1
      · exact Or.inr h1
      · exact Or.inl (List.mem_cons_of_mem _ h1)
    | succ n =>
      simp only [List.set] at h
      rcases List.mem_cons.mp h with h1 | h1
      · exact Or.inl (h1 ▸ List.mem_cons_self a t)
      · rcases ih n d' x h1 with h2 | h2
        · exact Or.inl (List.mem_cons_of_mem _ h2)
        · exact Or.inr h2

/-! ### Invariant preservation -/

theorem inv_init : Inv initState := by
  constructor
  · intro u; exact le_refl 0
  · intro u; simp [escrowOb, initState]
  · intro d hd; simp [initState] at hd
  · intro w hw; simp [initState] at hw

theorem inv_congr (s t : EscrowState) (hu : t.users = s.users)
    (hd : t.deals = s.deals) (hw : t.withdrawals = s.withdrawals)
    (hs : Inv s) : Inv t := by
  constructor
  · intro u; rw [hu]; exact hs.bal u
  · intro u
    have he : escrowOb t u = escrowOb s u := by
      unfold escrowOb; rw [hd, hw]
    rw [he, hu]; exact hs.esc u
  · intro d hdm; rw [hd] at hdm; exact hs.dealAmt d hdm
  · intro w hwm; rw [hw] at hwm; exact hs.wdAmt w hwm

/-- Replacing one deal row by a row with the same or smaller
per-user obligation and a nonnegative amount preserves the
invariant. -/
theorem inv_set_deal (s : EscrowState) (hs : Inv s) (di : Nat)
    (deal d' : DealRec) (hd : s.deals.get? di = some deal)
    (hob : ∀ v, dealOb v d' ≤ dealOb v deal)
    (hamt : 0 ≤ d'.amount) :
    Inv { s with deals := s.deals.set di d' } := by
  refine ⟨hs.bal, ?_, ?_, hs.wdAmt⟩
  · intro v
    show _ ≤ (s.users v).escrowed_amount
    have e1 : escrowOb { s with deals := s.deals.set di d' } v
        = ((s.deals.set di d').map (dealOb v)).sum
          + (s.withdrawals.map (wdOb v)).sum := rfl
    have e0 : escrowOb s v
        = (s.deals.map (dealOb v)).sum
          + (s.withdrawals.map (wdOb v)).sum := rfl
    have hset := sum_map_set (dealOb v) s.deals di deal d' hd
    have h1 := hs.esc v
    rw [e0] at h1
    rw [e1, hset]
    have h2 := hob v
    linarith
  · intro d hdm
    rcases mem_set_cases s.deals di d' d hdm with h | h
    · exact hs.dealAmt d h
    · rw [h]; exact hamt

/-- Crediting `a ≥ 0` to one user's balance preserves the invariant. -/
theorem inv_add_balance (s : EscrowState) (hs : Inv s) (i : Nat) (a : ℚ)
    (ha : 0 ≤ a) :
    Inv { s with users := updUser s.users i fun u =>
      { u with balance := u.balance + a } } := by
  refine ⟨?_, ?_, hs.dealAmt, hs.wdAmt⟩
  · intro v
    show 0 ≤ (updUser s.users i (fun u =>
      { u with balance := u.balance + a }) v).balance
    unfold updUser
    split_ifs with h
    · show 0 ≤ (s.users v).balance + a
      have := hs.bal v
      linarith
    · exact hs.bal v
  · intro v
    have he : escrowOb { s with users := updUser s.users i fun u =>
        { u with balance := u.balance + a } } v = escrowOb s v := rfl
    rw [he]
    show escrowOb s v ≤ (updUser s.users i (fun u =>
      { u with balance := u.balance + a }) v).escrowed_amount
    unfold updUser
    split_ifs with h
    · show escrowOb s v ≤ (s.users v).escrowed_amount
      exact hs.esc v
    · exact hs.esc v

theorem updUser_self (f : Nat → UserAcct) (i : Nat) (g : UserAcct → UserAcct) :
    updUser f i g i = g (f i) := by
  unfold updUser; simp

theorem updUser_other (f : Nat → UserAcct) (i j : Nat) (g : UserAcct → UserAcct)
    (h : ¬ j = i) : updUser f i g j = f j := by
  unfold updUser; simp [h]

theorem inv_create_deal (s : EscrowState) (hs : Inv s) (b se : Nat) (a : ℚ) :
    Inv (create_deal s b se a) := by
  unfold create_deal
  split_ifs with h
  · exact hs
  · push_neg at h
    refine ⟨hs.bal, ?_, ?_, hs.wdAmt⟩
    · intro v
      show ((s.deals ++ [(⟨b, se, a, .pending⟩ : DealRec)]).map (dealOb v)).sum
          + (s.withdrawals.map (wdOb v)).sum
          ≤ (s.users v).escrowed_amount
      rw [List.map_append, List.sum_append]
      have hz : ([(⟨b, se, a, .pending⟩ : DealRec)].map (dealOb v)).sum = 0 := by
        simp [dealOb]
      rw [hz]
      have h1 := hs.esc v
      have e0 : escrowOb s v = (s.deals.map (dealOb v)).sum
          + (s.withdrawals.map (wdOb v)).sum := rfl
      rw [e0] at h1
      linarith
    · intro d hdm
      rcases List.mem_append.mp hdm with h1 | h1
      · exact hs.dealAmt d h1
      · simp only [List.mem_singleton] at h1
        subst h1
        show (0 : ℚ) ≤ a
        linarith [h.1]

theorem inv_accept_deal (s : EscrowState) (hs : Inv s) (u di : Nat) :
    Inv (accept_deal s u di) := by
  cases hd : s.deals.get? di with
  | none => simpa only [accept_deal, hd] using hs
  | some deal =>
    simp only [accept_deal, hd]
    by_cases hg : deal.seller_id = u ∧ deal.status = .pending
    · rw [if_pos hg]
      by_cases hb : deal.amount + calculate_fee deal.amount ≤
          (s.users deal.buyer_id).balance
      · rw [if_pos hb]
        have hamt : 0 ≤ deal.amount := hs.dealAmt deal (mem_of_get?_some _ _ _ hd)
        refine ⟨?_, ?_, ?_, hs.wdAmt⟩
        · intro v
          show 0 ≤ (updUser s.users deal.buyer_id (fun bb =>
            { bb with
              balance := bb.balance - (deal.amount + calculate_fee deal.amount),
              escrowed_amount := bb.escrowed_amount + deal.amount }) v).balance
          by_cases h : v = deal.buyer_id
          · subst h
            rw [updUser_self]
            show 0 ≤ (s.users deal.buyer_id).balance -
              (deal.amount + calculate_fee deal.amount)
            linarith
          · rw [updUser_other _ _ _ _ h]
            exact hs.bal v
        · intro v
          show ((s.deals.set di { deal with status := .funded }).map
              (dealOb v)).sum + (s.withdrawals.map (wdOb v)).sum
              ≤ (updUser s.users deal.buyer_id (fun bb =>
                { bb with
                  balance :=
                    bb.balance - (deal.amount + calculate_fee deal.amount),
                  escrowed_amount := bb.escrowed_amount + deal.amount })
                v).escrowed_amount
          rw [sum_map_set (dealOb v) s.deals di deal _ hd]
          have hdo : dealOb v deal = 0 := by simp [dealOb, hg.2]
          have hdn : dealOb v { deal with status := DealStatus.funded }
              = if deal.buyer_id = v then deal.amount else 0 := by
            simp [dealOb]
          rw [hdo, hdn]
          have h1 := hs.esc v
          have e0 : escrowOb s v = (s.deals.map (dealOb v)).sum
              + (s.withdrawals.map (wdOb v)).sum := rfl
          rw [e0] at h1
          by_cases h : v = deal.buyer_id
          · subst h
            rw [updUser_self, if_pos rfl]
            show _ ≤ (s.users deal.buyer_id).escrowed_amount + deal.amount
            linarith
          · rw [updUser_other _ _ _ _ h,
              if_neg (fun hh => h hh.symm)]
            linarith
        · intro d hdm
          rcases mem_set_cases s.deals di _ d hdm with h | h
          · exact hs.dealAmt d h
          · subst h
            show (0 : ℚ) ≤ deal.amount
            exact hamt
      · rw [if_neg hb]; exact hs
    · rw [if_neg hg]; exact hs

theorem updUser_sub_escrow_balance (f : Nat → UserAcct) (i v : Nat) (a : ℚ) :
    (updUser f i (fun b =>
      { b with escrowed_amount := b.escrowed_amount - a }) v).balance
      = (f v).balance := by
  by_cases hv : v = i
  · subst hv; rw [updUser_self]
  · rw [updUser_other _ _ _ _ hv]

theorem updUser_add_balance_escrow (f : Nat → UserAcct) (i v : Nat) (a : ℚ) :
    (updUser f i (fun b =>
      { b with balance := b.balance + a }) v).escrowed_amount
      = (f v).escrowed_amount := by
  by_cases hv : v = i
  · subst hv; rw [updUser_self]
  · rw [updUser_other _ _ _ _ hv]

theorem inv_decline_deal (s : EscrowState) (hs : Inv s) (u di : Nat) :
    Inv (decline_deal s u di) := by
  cases hd : s.deals.get? di with
  | none => simpa only [decline_deal, hd] using hs
  | some deal =>
    simp only [decline_deal, hd]
    by_cases hg : deal.seller_id = u ∧ deal.status = .pending
    · rw [if_pos hg]
      exact inv_set_deal s hs di deal _ hd
        (fun v => by simp [dealOb, hg.2])
        (hs.dealAmt deal (mem_of_get?_some _ _ _ hd))
    · rw [if_neg hg]; exact hs

theorem inv_mark_delivered (s : EscrowState) (hs : Inv s) (u di : Nat) :
    Inv (mark_delivered s u di) := by
  cases hd : s.deals.get? di with
  | none => simpa only [mark_delivered, hd] using hs
  | some deal =>
    simp only [mark_delivered, hd]
    by_cases hg : deal.seller_id = u ∧ deal.status = .funded
    · rw [if_pos hg]
      exact inv_set_deal s hs di deal _ hd
        (fun v => by simp [dealOb, hg.2])
        (hs.dealAmt deal (mem_of_get?_some _ _ _ hd))
    · rw [if_neg hg]; exact hs

theorem inv_dispute_deal (s : EscrowState) (hs : Inv s) (u di : Nat) :
    Inv (dispute_deal s u di) := by
  cases hd : s.deals.get? di with
  | none => simpa only [dispute_deal, hd] using hs
  | some deal =>
    simp only [dispute_deal, hd]
    by_cases hg : deal.buyer_id = u ∧ deal.status = .delivered
    · rw [if_pos hg]
      have hamt : 0 ≤ deal.amount := hs.dealAmt deal (mem_of_get?_some _ _ _ hd)
      refine inv_set_deal s hs di deal _ hd (fun v => ?_) hamt
      have h0 : dealOb v { deal with status := DealStatus.disputed } = 0 := by
        simp [dealOb]
      rw [h0]
      unfold dealOb
      split_ifs
      · exact hamt
      · exact le_refl 0
    · rw [if_neg hg]; exact hs

theorem inv_resolve_favor_buyer (s : EscrowState) (hs : Inv s) (di : Nat) :
    Inv (resolve_dispute_favor_buyer s di) := by
  cases hd : s.deals.get? di with
  | none => simpa only [resolve_dispute_favor_buyer, hd] using hs
  | some deal =>
    simp only [resolve_dispute_favor_buyer, hd]
    by_cases hg : deal.status = .disputed
    · rw [if_pos hg]
      have hamt : 0 ≤ deal.amount := hs.dealAmt deal (mem_of_get?_some _ _ _ hd)
      have h1 : Inv { s with deals :=
          (s.deals.set di { deal with status := DealStatus.completed }) } :=
        inv_set_deal s hs di deal _ hd (fun v => by simp [dealOb, hg]) hamt
      exact inv_add_balance _ h1 deal.buyer_id deal.amount hamt
    · rw [if_neg hg]; exact hs

theorem inv_resolve_favor_seller (s : EscrowState) (hs : Inv s) (di : Nat) :
    Inv (resolve_dispute_favor_seller s di) := by
  cases hd : s.deals.get? di with
  | none => simpa only [resolve_dispute_favor_seller, hd] using hs
  | some deal =>
    simp only [resolve_dispute_favor_seller, hd]
    by_cases hg : deal.status = .disputed
    · rw [if_pos hg]
      exact inv_set_deal s hs di deal _ hd
        (fun v => by simp [dealOb, hg])
        (hs.dealAmt deal (mem_of_get?_some _ _ _ hd))
    · rw [if_neg hg]; exact hs

theorem inv_resolve_split (s : EscrowState) (hs : Inv s) (di : Nat) :
    Inv (resolve_dispute_split s di) := by
  cases hd : s.deals.get? di with
  | none => simpa only [resolve_dispute_split, hd] using hs
  | some deal =>
    simp only [resolve_dispute_split, hd]
    by_cases hg : deal.status = .disputed
    · rw [if_pos hg]
      have hamt : 0 ≤ deal.amount := hs.dealAmt deal (mem_of_get?_some _ _ _ hd)
      have h1 : Inv { s with deals :=
          (s.deals.set di { deal with status := DealStatus.completed }) } :=
        inv_set_deal s hs di deal _ hd (fun v => by simp [dealOb, hg]) hamt
      have h2 : 0 ≤ deal.amount / 2 := by linarith
      exact inv_add_balance _ h1 deal.buyer_id (deal.amount / 2) h2
    · rw [if_neg hg]; exact hs

theorem inv_release_payment (s : EscrowState) (hs : Inv s) (u di : Nat) :
    Inv (release_payment s u di) := by
  cases hd : s.deals.get? di with
  | none => simpa only [release_payment, hd] using hs
  | some deal =>
    simp only [release_payment, hd]
    by_cases hg : deal.buyer_id = u ∧ deal.status = .delivered
    · rw [if_pos hg]
      have hamt : 0 ≤ deal.amount := hs.dealAmt deal (mem_of_get?_some _ _ _ hd)
      refine ⟨?_, ?_, ?_, hs.wdAmt⟩
      · intro v
        show 0 ≤ (updUser
          (updUser s.users deal.buyer_id fun b =>
            { b with escrowed_amount := b.escrowed_amount - deal.amount })
          deal.seller_id (fun se =>
            { se with balance := se.balance + deal.amount }) v).balance
        by_cases hv : v = deal.seller_id
        · subst hv
          rw [updUser_self]
          show 0 ≤ (updUser s.users deal.buyer_id (fun b =>
            { b with escrowed_amount := b.escrowed_amount - deal.amount })
            deal.seller_id).balance + deal.amount
          rw [updUser_sub_escrow_balance]
          linarith [hs.bal deal.seller_id]
        · rw [updUser_other _ _ _ _ hv, updUser_sub_escrow_balance]
          exact hs.bal v
      · intro v
        show ((s.deals.set di { deal with status := .completed }).map
            (dealOb v)).sum + (s.withdrawals.map (wdOb v)).sum
            ≤ (updUser
              (updUser s.users deal.buyer_id fun b =>
                { b with escrowed_amount := b.escrowed_amount - deal.amount })
              deal.seller_id (fun se =>
                { se with balance := se.balance + deal.amount })
              v).escrowed_amount
        rw [updUser_add_balance_escrow]
        rw [sum_map_set (dealOb v) s.deals di deal _ hd]
        have hdo : dealOb v deal = if deal.buyer_id = v then deal.amount else 0 := by
          simp [dealOb, hg.2]
        have hdn : dealOb v { deal with status := DealStatus.completed } = 0 := by
          simp [dealOb]
        rw [hdo, hdn]
        have h1 := hs.esc v
        have e0 : escrowOb s v = (s.deals.map (dealOb v)).sum
            + (s.withdrawals.map (wdOb v)).sum := rfl
        rw [e0] at h1
        by_cases hv : v = deal.buyer_id
        · subst hv
          rw [updUser_self, if_pos rfl]
          show _ ≤ (s.users deal.buyer_id).escrowed_amount - deal.amount
          linarith
        · rw [updUser_other _ _ _ _ hv, if_neg fun hh => hv hh.symm]
          linarith
      · intro d hdm
        rcases mem_set_cases s.deals di _ d hdm with h | h
        · exact hs.dealAmt d h
        · subst h
          show (0 : ℚ) ≤ deal.amount
          exact hamt
    · rw [if_neg hg]; exact hs

theorem inv_request_withdrawal (s : EscrowState) (hs : Inv s) (u : Nat) (a : ℚ) :
    Inv (request_withdrawal s u a) := by
  unfold request_withdrawal
  split_ifs with h1 h2
  · exact hs
  · exact hs
  · have ha : (10 : ℚ) ≤ a := not_lt.mp h1
    have hba : a ≤ (s.users u).balance := not_lt.mp h2
    refine ⟨?_, ?_, hs.dealAmt, ?_⟩
    · intro v
      show 0 ≤ (updUser s.users u (fun uu =>
        { uu with
          balance := uu.balance - a,
          escrowed_amount := uu.escrowed_amount + a }) v).balance
      by_cases hv : v = u
      · subst hv
        rw [updUser_self]
        show 0 ≤ (s.users v).balance - a
        linarith
      · rw [updUser_other _ _ _ _ hv]
        exact hs.bal v
    · intro v
      show (s.deals.map (dealOb v)).sum
          + ((s.withdrawals ++ [(⟨u, a, .pending⟩ : WdRec)]).map (wdOb v)).sum
          ≤ (updUser s.users u (fun uu =>
            { uu with
              balance := uu.balance - a,
              escrowed_amount := uu.escrowed_amount + a }) v).escrowed_amount
      rw [List.map_append, List.sum_append]
      have hnew : ([(⟨u, a, .pending⟩ : WdRec)].map (wdOb v)).sum
          = if u = v then a else 0 := by
        simp [wdOb]
      rw [hnew]
      have h1 := hs.esc v
      have e0 : escrowOb s v = (s.deals.map (dealOb v)).sum
          + (s.withdrawals.map (wdOb v)).sum := rfl
      rw [e0] at h1
      by_cases hv : v = u
      · subst hv
        rw [updUser_self, if_pos rfl]
        show _ ≤ (s.users v).escrowed_amount + a
        linarith
      · rw [updUser_other _ _ _ _ hv, if_neg fun hh => hv hh.symm]
        linarith
    · intro w hwm
      rcases List.mem_append.mp hwm with h | h
      · exact hs.wdAmt w h
      · simp only [List.mem_singleton] at h
        subst h
        show (0 : ℚ) ≤ a
        linarith

theorem inv_confirm_withdrawal (s : EscrowState) (hs : Inv s) (wi : Nat) :
    Inv (confirm_withdrawal s wi).1 := by
  cases hw : s.withdrawals.get? wi with
  | none => simpa only [confirm_withdrawal, hw] using hs
  | some w =>
    simp only [confirm_withdrawal, hw]
    split_ifs with h1 h2 h3
    · exact hs
    · exact hs
    · have hp : w.status = .pending := h2
      have hamt : 0 ≤ w.amount := hs.wdAmt w (mem_of_get?_some _ _ _ hw)
      refine ⟨?_, ?_, hs.dealAmt, ?_⟩
      · intro v
        show 0 ≤ (updUser s.users w.user_id (fun uu =>
          { uu with escrowed_amount := uu.escrowed_amount - w.amount }) v).balance
        rw [updUser_sub_escrow_balance]
        exact hs.bal v
      · intro v
        show (s.deals.map (dealOb v)).sum
            + ((s.withdrawals.set wi { w with status := .completed }).map
              (wdOb v)).sum
            ≤ (updUser s.users w.user_id (fun uu =>
              { uu with escrowed_amount := uu.escrowed_amount - w.amount })
              v).escrowed_amount
        rw [sum_map_set (wdOb v) s.withdrawals wi w _ hw]
        have ho : wdOb v w = if w.user_id = v then w.amount else 0 := by
          simp [wdOb, hp]
        have hn : wdOb v { w with status := WithdrawalStatus.completed } = 0 := by
          simp [wdOb]
        rw [ho, hn]
        have hh1 := hs.esc v
        have e0 : escrowOb s v = (s.deals.map (dealOb v)).sum
            + (s.withdrawals.map (wdOb v)).sum := rfl
        rw [e0] at hh1
        by_cases hv : v = w.user_id
        · subst hv
          rw [updUser_self, if_pos rfl]
          show _ ≤ (s.users w.user_id).escrowed_amount - w.amount
          linarith
        · rw [updUser_other _ _ _ _ hv, if_neg fun hh => hv hh.symm]
          linarith
      · intro x hxm
        rcases mem_set_cases s.withdrawals wi _ x hxm with h | h
        · exact hs.wdAmt x h
        · subst h
          show (0 : ℚ) ≤ w.amount
          exact hamt
    · exact hs

theorem inv_reject_withdrawal (s : EscrowState) (hs : Inv s) (wi : Nat) :
    Inv (reject_withdrawal s wi).1 := by
  cases hw : s.withdrawals.get? wi with
  | none => simpa only [reject_withdrawal, hw] using hs
  | some w =>
    simp only [reject_withdrawal, hw]
    split_ifs with h1 h2 h3
    · exact hs
    · exact hs
    · have hp : w.status = .pending := h2
      have hamt : 0 ≤ w.amount := hs.wdAmt w (mem_of_get?_some _ _ _ hw)
      refine ⟨?_, ?_, hs.dealAmt, ?_⟩
      · intro v
        show 0 ≤ (updUser s.users w.user_id (fun uu =>
          { uu with
            escrowed_amount := uu.escrowed_amount - w.amount,
            balance := uu.balance + w.amount }) v).balance
        by_cases hv : v = w.user_id
        · subst hv
          rw [updUser_self]
          show 0 ≤ (s.users w.user_id).balance + w.amount
          linarith [hs.bal w.user_id]
        · rw [updUser_other _ _ _ _ hv]
          exact hs.bal v
      · intro v
        show (s.deals.map (dealOb v)).sum
            + ((s.withdrawals.set wi { w with status := .rejected }).map
              (wdOb v)).sum
            ≤ (updUser s.users w.user_id (fun uu =>
              { uu with
                escrowed_amount := uu.escrowed_amount - w.amount,
                balance := uu.balance + w.amount }) v).escrowed_amount
        rw [sum_map_set (wdOb v) s.withdrawals wi w _ hw]
        have ho : wdOb v w = if w.user_id = v then w.amount else 0 := by
          simp [wdOb, hp]
        have hn : wdOb v { w with status := WithdrawalStatus.rejected } = 0 := by
          simp [wdOb]
        rw [ho, hn]
        have hh1 := hs.esc v
        have e0 : escrowOb s v = (s.deals.map (dealOb v)).sum
            + (s.withdrawals.map (wdOb v)).sum := rfl
        rw [e0] at hh1
        by_cases hv : v = w.user_id
        · subst hv
          rw [updUser_self, if_pos rfl]
          show _ ≤ (s.users w.user_id).escrowed_amount - w.amount
          linarith
        · rw [updUser_other _ _ _ _ hv, if_neg fun hh => hv hh.symm]
          linarith
      · intro x hxm
        rcases mem_set_cases s.withdrawals wi _ x hxm with h | h
        · exact hs.wdAmt x h
        · subst h
          show (0 : ℚ) ≤ w.amount
          exact hamt
    · exact hs

theorem inv_approve_deposit (s : EscrowState) (hs : Inv s) (u : Nat) (a : ℚ)
    (c : String) (ha : 0 ≤ a) :
    Inv (admin_approve_deposit s u a c).1 := by
  unfold admin_approve_deposit
  split_ifs with h
  · exact hs
  · exact inv_congr
      { s with users := updUser s.users u fun uu =>
          { uu with balance := uu.balance + a } } _ rfl rfl rfl
      (inv_add_balance s hs u a ha)

/-- The ledger invariant holds in every reachable state. -/
theorem reachable_inv {s : EscrowState} (h : Reachable s) : Inv s := by
  induction h with
  | init => exact inv_init
  | step hr hst ih =>
    cases hst with
    | createDeal b se a => exact inv_create_deal _ ih b se a
    | acceptDeal u di => exact inv_accept_deal _ ih u di
    | declineDeal u di => exact inv_decline_deal _ ih u di
    | markDelivered u di => exact inv_mark_delivered _ ih u di
    | releasePayment u di => exact inv_release_payment _ ih u di
    | disputeDeal u di => exact inv_dispute_deal _ ih u di
    | resolveFavorBuyer di => exact inv_resolve_favor_buyer _ ih di
    | resolveFavorSeller di => exact inv_resolve_favor_seller _ ih di
    | resolveSplit di => exact inv_resolve_split _ ih di
    | requestWithdrawal u a => exact inv_request_withdrawal _ ih u a
    | confirmWithdrawal wi => exact inv_confirm_withdrawal _ ih wi
    | rejectWithdrawal wi => exact inv_reject_withdrawal _ ih wi
    | approveDeposit u a c hlo hhi =>
      exact inv_approve_deposit _ ih u a c (by linarith)

/-- C8: for every account and every state reachable from the fresh system by
any sequence of deal, withdrawal, deposit and dispute operations, the
account's balance and escrowed amount are both nonnegative. -/
theorem C8_balance_escrow_nonneg (s : EscrowState) (h : Reachable s) (u : Nat) :
    0 ≤ (s.users u).balance ∧ 0 ≤ (s.users u).escrowed_amount := by
  have hi := reachable_inv h
  refine ⟨hi.bal u, le_trans ?_ (hi.esc u)⟩
  have h1 : 0 ≤ (s.deals.map (dealOb u)).sum := by
    apply sum_map_nonneg
    intro d hd
    unfold dealOb
    split_ifs
    · exact hi.dealAmt d hd
    · exact le_refl 0
  have h2 : 0 ≤ (s.withdrawals.map (wdOb u)).sum := by
    apply sum_map_nonneg
    intro w hw
    unfold wdOb
    split_ifs
    · exact hi.wdAmt w hw
    · exact le_refl 0
  show 0 ≤ escrowOb s u
  unfold escrowOb
  linarith

/-- Witness for C8: the invariant instantiated at the initial state. -/
theorem C8_balance_escrow_nonneg_witness :
    0 ≤ (initState.users 0).balance ∧ 0 ≤ (initState.users 0).escrowed_amount :=
  C8_balance_escrow_nonneg initState Reachable.init 0

theorem get?_set_self {α : Type} :
    ∀ (l : List α) (i : Nat) (d d' : α), l.get? i = some d →
      (l.set i d').get? i = some d' := by
  intro l
  induction l with
  | nil => intro i d d' h; simp at h
  | cons a t ih =>
    intro i d d' h
    cases i with
    | zero => simp [List.set]
    | succ n =>
      simp only [List.get?] at h
      simp only [List.set, List.get?]
      exact ih n d d' h

/-- C9: `calculate_fee` is a pure function of the amount alone: $5.00 flat
below $100, 5% of the amount at or above $100; in particular
fee(99.99) = 5.00, fee(100.00) = 5.00 and fee(1000.00) = 50.00. -/
theorem C9_fee (a : ℚ) :
    (a < 100 → calculate_fee a = 5) ∧
    (100 ≤ a → calculate_fee a = a * (5 / 100)) ∧
    calculate_fee (9999 / 100) = 5 ∧
    calculate_fee 100 = 5 ∧
    calculate_fee 1000 = 50 := by
  refine ⟨?_, ?_, ?_, ?_, ?_⟩
  · intro h
    unfold calculate_fee
    rw [if_pos h]
  · intro h
    unfold calculate_fee
    rw [if_neg (not_lt.mpr h)]
  · unfold calculate_fee
    rw [if_pos (by norm_num)]
  · unfold calculate_fee
    rw [if_neg (by norm_num)]
    norm_num
  · unfold calculate_fee
    rw [if_neg (by norm_num)]
    norm_num

/-- Witness for C9: the fee function evaluated below and above the $100
boundary. -/
theorem C9_fee_witness :
    calculate_fee 50 = 5 ∧ calculate_fee 200 = 200 * (5 / 100) :=
  ⟨(C9_fee 50).1 (by norm_num), (C9_fee 200).2.1 (by norm_num)⟩

/-- Buyer 0 with balance 100 fully escrowed against the single disputed
deal of amount 100 with seller 1: the state Scenario C starts from. -/
def c1State : EscrowState :=
  ⟨fun i => if i = 0 then ⟨0, 100⟩ else ⟨0, 0⟩,
    [⟨0, 1, 100, .disputed⟩], [], []⟩

/-- C1: evaluating `resolve_dispute_split` on a disputed deal of amount
100.00 whose buyer's escrow holds exactly 100.00: the code adds 50.00 to the
buyer's balance but leaves the buyer's escrowed amount at 100.00 and the
seller's balance at 0.00 — instead of refunding the buyer's half out of
escrow, releasing the other half to the seller and draining the escrow to
zero.  The deal does end Completed. -/
theorem C1_split_code_divergence :
    (resolve_dispute_split c1State 0).deals.get? 0
      = some ⟨0, 1, 100, .completed⟩ ∧
    ((resolve_dispute_split c1State 0).users 0).balance = 50 ∧
    ((resolve_dispute_split c1State 0).users 0).escrowed_amount = 100 ∧
    ((resolve_dispute_split c1State 0).users 1).balance = 0 ∧
    ((resolve_dispute_split c1State 0).users 1).escrowed_amount = 0 := by
  norm_num [resolve_dispute_split, c1State, updUser]

/-- C2: on the same disputed deal, `resolve_dispute_favor_buyer` adds the
full amount to the buyer's balance without decrementing the buyer's escrow
(minting money rather than refunding the reservation), and
`resolve_dispute_favor_seller` moves no money at all — the seller's balance
stays 0 and the buyer's escrow stays 100, though both deals end
Completed. -/
theorem C2_dispute_resolution_divergence :
    ((resolve_dispute_favor_buyer c1State 0).users 0).balance = 100 ∧
    ((resolve_dispute_favor_buyer c1State 0).users 0).escrowed_amount = 100 ∧
    (resolve_dispute_favor_buyer c1State 0).deals.get? 0
      = some ⟨0, 1, 100, .completed⟩ ∧
    ((resolve_dispute_favor_seller c1State 0).users 1).balance = 0 ∧
    ((resolve_dispute_favor_seller c1State 0).users 0).escrowed_amount = 100 ∧
    (resolve_dispute_favor_seller c1State 0).deals.get? 0
      = some ⟨0, 1, 100, .completed⟩ := by
  norm_num [resolve_dispute_favor_buyer, resolve_dispute_favor_seller, c1State,
    updUser]

/-- C5: accepting a Pending deal as its seller: when the buyer's balance
covers amount + fee the deal becomes Funded, the buyer's balance drops by
amount + fee and the buyer's escrow rises by only the amount (the fee is
retained untracked); when the balance falls short nothing changes at all. -/
theorem C5_accept_deal (s : EscrowState) (u di : Nat) (deal : DealRec)
    (hd : s.deals.get? di = some deal)
    (hsell : deal.seller_id = u) (hst : deal.status = .pending) :
    (deal.amount + calculate_fee deal.amount ≤ (s.users deal.buyer_id).balance →
      (accept_deal s u di).deals.get? di
        = some { deal with status := .funded } ∧
      ((accept_deal s u di).users deal.buyer_id).balance
        = (s.users deal.buyer_id).balance
          - (deal.amount + calculate_fee deal.amount) ∧
      ((accept_deal s u di).users deal.buyer_id).escrowed_amount
        = (s.users deal.buyer_id).escrowed_amount + deal.amount) ∧
    ((s.users deal.buyer_id).balance < deal.amount + calculate_fee deal.amount →
      accept_deal s u di = s) := by
  constructor
  · intro hb
    simp only [accept_deal, hd, if_pos (And.intro hsell hst), if_pos hb]
    refine ⟨get?_set_self s.deals di deal _ hd, ?_, ?_⟩
    · show (updUser s.users deal.buyer_id _ deal.buyer_id).balance = _
      rw [updUser_self]
    · show (updUser s.users deal.buyer_id _ deal.buyer_id).escrowed_amount = _
      rw [updUser_self]
  · intro hb
    simp only [accept_deal, hd, if_pos (And.intro hsell hst),
      if_neg (not_le.mpr hb)]

/-- Scenario A state: buyer 0 with balance 60, seller 1, one Pending deal
of amount 50. -/
def c5State : EscrowState :=
  ⟨fun i => if i = 0 then ⟨60, 0⟩ else ⟨0, 0⟩,
    [⟨0, 1, 50, .pending⟩], [], []⟩

/-- Witness for C5 (Scenario A): amount 50, buyer balance 60, fee 5 →
after accept the balance is 5 and the escrow 50. -/
theorem C5_accept_deal_witness :
    ((accept_deal c5State 1 0).users 0).balance = 5 ∧
    ((accept_deal c5State 1 0).users 0).escrowed_amount = 50 ∧
    (accept_deal c5State 1 0).deals.get? 0 = some ⟨0, 1, 50, .funded⟩ := by
  have h := (C5_accept_deal c5State 1 0 ⟨0, 1, 50, .pending⟩
    (by simp [c5State]) (by simp) (by simp)).1
    (by norm_num [c5State, calculate_fee])
  refine ⟨?_, ?_, h.1⟩
  · rw [h.2.1]; norm_num [c5State, calculate_fee]
  · rw [h.2.2]; norm_num [c5State]

/-- Delivered deal of amount 50 between buyer 0 (escrow 50) and seller 1. -/
def c4State : EscrowState :=
  ⟨fun i => if i = 0 then ⟨0, 50⟩ else ⟨0, 0⟩,
    [⟨0, 1, 50, .delivered⟩], [], []⟩

/-- C4 counterexample: `release_payment` moves 50.00 out of the buyer's
escrow and credits 50.00 to the seller's balance — two balance mutations —
yet the transaction table stays empty: a balance mutation commits without
any matching Transaction. -/
theorem C4_counterexample :
    ((release_payment c4State 0 0).users 1).balance = 50 ∧
    ((release_payment c4State 0 0).users 0).escrowed_amount = 0 ∧
    (release_payment c4State 0 0).transactions = [] := by
  norm_num [release_payment, c4State, updUser]

/-- C4 amended: `accept_deal`, `confirm_withdrawal` and
`admin_approve_deposit` append exactly one Transaction whenever they mutate
a balance (and none otherwise), but `release_payment`, the withdrawal
reservation, `reject_withdrawal` and all three dispute resolutions never
append a Transaction, even when they move money. -/
theorem C4_transaction_logging (s : EscrowState) (u di wi : Nat) (a : ℚ)
    (c : String) :
    (accept_deal s u di = s ∨
      (accept_deal s u di).transactions.length = s.transactions.length + 1) ∧
    ((confirm_withdrawal s wi).1 = s ∨
      (confirm_withdrawal s wi).1.transactions.length
        = s.transactions.length + 1) ∧
    ((admin_approve_deposit s u a c).1 = s ∨
      (admin_approve_deposit s u a c).1.transactions.length
        = s.transactions.length + 1) ∧
    (release_payment s u di).transactions = s.transactions ∧
    (request_withdrawal s u a).transactions = s.transactions ∧
    (reject_withdrawal s wi).1.transactions = s.transactions ∧
    (resolve_dispute_favor_buyer s di).transactions = s.transactions ∧
    (resolve_dispute_favor_seller s di).transactions = s.transactions ∧
    (resolve_dispute_split s di).transactions = s.transactions := by
  refine ⟨?_, ?_, ?_, ?_, ?_, ?_, ?_, ?_, ?_⟩
  · cases hd : s.deals.get? di with
    | none => exact Or.inl (by simp only [accept_deal, hd])
    | some deal =>
      by_cases hg : deal.seller_id = u ∧ deal.status = .pending
      · by_cases hb : deal.amount + calculate_fee deal.amount ≤
            (s.users deal.buyer_id).balance
        · refine Or.inr ?_
          simp only [accept_deal, hd, if_pos hg, if_pos hb]
          simp [List.length_append]
        · exact Or.inl (by simp only [accept_deal, hd, if_pos hg, if_neg hb])
      · exact Or.inl (by simp only [accept_deal, hd, if_neg hg])
  · cases hw : s.withdrawals.get? wi with
    | none => exact Or.inl (by simp only [confirm_withdrawal, hw])
    | some w =>
      simp only [confirm_withdrawal, hw]
      split_ifs
      · exact Or.inl rfl
      · exact Or.inl rfl
      · refine Or.inr ?_
        simp [List.length_append]
      · exact Or.inl rfl
  · unfold admin_approve_deposit
    split_ifs
    · exact Or.inl rfl
    · refine Or.inr ?_
      simp [List.length_append]
  · cases hd : s.deals.get? di with
    | none => simp only [release_payment, hd]
    | some deal =>
      simp only [release_payment, hd]
      split_ifs <;> rfl
  · unfold request_withdrawal
    split_ifs <;> rfl
  · cases hw : s.withdrawals.get? wi with
    | none => simp only [reject_withdrawal, hw]
    | some w =>
      simp only [reject_withdrawal, hw]
      split_ifs <;> rfl
  · cases hd : s.deals.get? di with
    | none => simp only [resolve_dispute_favor_buyer, hd]
    | some deal =>
      simp only [resolve_dispute_favor_buyer, hd]
      split_ifs <;> rfl
  · cases hd : s.deals.get? di with
    | none => simp only [resolve_dispute_favor_seller, hd]
    | some deal =>
      simp only [resolve_dispute_favor_seller, hd]
      split_ifs <;> rfl
  · cases hd : s.deals.get? di with
    | none => simp only [resolve_dispute_split, hd]
    | some deal =>
      simp only [resolve_dispute_split, hd]
      split_ifs <;> rfl

/-- C6: confirming a Pending withdrawal whose owner's escrow covers the
amount decrements only the escrowed amount, leaves the balance unchanged,
marks the request Completed and logs exactly one Withdrawal Transaction with
negative amount; applied to a request already Completed or Rejected it
changes no state and reports it as already processed. -/
theorem C6_confirm_withdrawal (s : EscrowState) (wi : Nat) (w : WdRec)
    (hw : s.withdrawals.get? wi = some w) :
    (w.status = .pending →
      w.amount ≤ (s.users w.user_id).escrowed_amount →
      ((confirm_withdrawal s wi).1.users w.user_id).escrowed_amount
        = (s.users w.user_id).escrowed_amount - w.amount ∧
      ((confirm_withdrawal s wi).1.users w.user_id).balance
        = (s.users w.user_id).balance ∧
      (confirm_withdrawal s wi).1.withdrawals.get? wi
        = some { w with status := .completed } ∧
      (confirm_withdrawal s wi).1.transactions
        = s.transactions ++
          [⟨w.user_id, -w.amount, "withdrawal", "completed",
            "Withdrawal to crypto address"⟩] ∧
      (confirm_withdrawal s wi).2 = .ok) ∧
    ((w.status = .completed ∨ w.status = .rejected) →
      (confirm_withdrawal s wi).1 = s ∧
      ((confirm_withdrawal s wi).2 = .alreadyCompleted ∨
        (confirm_withdrawal s wi).2 = .alreadyProcessed)) := by
  constructor
  · intro hp hcov
    have hnc : ¬ w.status = WithdrawalStatus.completed := by simp [hp]
    have hnn : ¬ ¬ w.status = WithdrawalStatus.pending := not_not_intro hp
    have hge : ¬ (s.users w.user_id).escrowed_amount < w.amount :=
      not_lt.mpr hcov
    simp only [confirm_withdrawal, hw, if_neg hnc, if_neg hnn, if_neg hge]
    refine ⟨?_, ?_, get?_set_self s.withdrawals wi w _ hw, trivial, trivial⟩
    · show (updUser s.users w.user_id _ w.user_id).escrowed_amount = _
      rw [updUser_self]
    · show (updUser s.users w.user_id _ w.user_id).balance = _
      rw [updUser_self]
  · intro ht
    rcases ht with hc | hr
    · simp only [confirm_withdrawal, hw, if_pos hc]
      exact ⟨trivial, Or.inl trivial⟩
    · have hnc : ¬ w.status = WithdrawalStatus.completed := by simp [hr]
      have hnp : ¬ w.status = WithdrawalStatus.pending := by simp [hr]
      simp only [confirm_withdrawal, hw, if_neg hnc, if_pos hnp]
      exact ⟨trivial, Or.inr trivial⟩

/-- The Scenario B account: balance 20.00, nothing escrowed. -/
def c6Base : EscrowState := ⟨fun _ => ⟨20, 0⟩, [], [], []⟩

/-- Scenario B after requesting a withdrawal of the full 20.00. -/
def c6State : EscrowState := request_withdrawal c6Base 0 20

/-- Witness for C6 (Scenario B): requesting 20.00 moves the balance to 0 and
escrow to 20; confirming drains the escrow to 0 with the balance still 0;
confirming again changes nothing. -/
theorem C6_confirm_withdrawal_witness :
    (c6State.users 0).balance = 0 ∧
    (c6State.users 0).escrowed_amount = 20 ∧
    ((confirm_withdrawal c6State 0).1.users 0).escrowed_amount = 0 ∧
    ((confirm_withdrawal c6State 0).1.users 0).balance = 0 ∧
    (confirm_withdrawal (confirm_withdrawal c6State 0).1 0).1
      = (confirm_withdrawal c6State 0).1 := by
  have e1 : (c6State.users 0).balance = 0 := by
    norm_num [c6State, c6Base, request_withdrawal, updUser]
  have e2 : (c6State.users 0).escrowed_amount = 20 := by
    norm_num [c6State, c6Base, request_withdrawal, updUser]
  have hw0 : c6State.withdrawals.get? 0 = some ⟨0, 20, .pending⟩ := by
    norm_num [c6State, c6Base, request_withdrawal, updUser]
  have h := (C6_confirm_withdrawal c6State 0 ⟨0, 20, .pending⟩ hw0).1
    rfl (le_of_eq e2.symm)
  have h2 := (C6_confirm_withdrawal (confirm_withdrawal c6State 0).1 0
    ⟨0, 20, .completed⟩ h.2.2.1).2 (Or.inl rfl)
  refine ⟨e1, e2, ?_, ?_, h2.1⟩
  · rw [h.1, e2]; norm_num
  · rw [h.2.1, e1]

/-- C7 amended: the deposit idempotency key is (account, amount) only — the
crypto kind is not part of it.  An approval is rejected as already processed
exactly when a completed deposit Transaction with the same user and amount
exists (whatever its kind); otherwise the balance is credited once and one
completed deposit Transaction is appended, carrying the kind only in its
description. -/
theorem C7_approve_deposit_key (s : EscrowState) (u : Nat) (a : ℚ)
    (c : String) :
    ((∃ t ∈ s.transactions, t.user_id = u ∧ t.amount = a ∧
        t.transaction_type = "deposit" ∧ t.status = "completed") →
      admin_approve_deposit s u a c = (s, .alreadyProcessed)) ∧
    (¬ (∃ t ∈ s.transactions, t.user_id = u ∧ t.amount = a ∧
        t.transaction_type = "deposit" ∧ t.status = "completed") →
      ((admin_approve_deposit s u a c).1.users u).balance
        = (s.users u).balance + a ∧
      ((admin_approve_deposit s u a c).1.users u).escrowed_amount
        = (s.users u).escrowed_amount ∧
      (admin_approve_deposit s u a c).1.transactions
        = s.transactions ++
          [⟨u, a, "deposit", "completed", "Deposit via " ++ c⟩] ∧
      (admin_approve_deposit s u a c).2 = .credited) := by
  have hiff : (s.transactions.any fun t =>
      decide (t.user_id = u ∧ t.amount = a ∧
        t.transaction_type = "deposit" ∧ t.status = "completed")) = true
      ↔ (∃ t ∈ s.transactions, t.user_id = u ∧ t.amount = a ∧
        t.transaction_type = "deposit" ∧ t.status = "completed") := by
    rw [List.any_eq_true]
    constructor
    · rintro ⟨t, ht, hp⟩
      exact ⟨t, ht, of_decide_eq_true hp⟩
    · rintro ⟨t, ht, hp⟩
      exact ⟨t, ht, decide_eq_true hp⟩
  constructor
  · intro hex
    unfold admin_approve_deposit
    rw [if_pos (hiff.mpr hex)]
  · intro hex
    unfold admin_approve_deposit
    rw [if_neg fun hh => hex (hiff.mp hh)]
    refine ⟨?_, ?_, rfl, rfl⟩
    · show (updUser s.users u _ u).balance = _
      rw [updUser_self]
    · show (updUser s.users u _ u).escrowed_amount = _
      rw [updUser_self]

/-- The state after the admin approves a BTC deposit of 50.00 for user 0. -/
def c7State : EscrowState := (admin_approve_deposit initState 0 50 "BTC").1

/-- C7 counterexample: in `c7State` no completed deposit Transaction with
the key (user 0, amount 50, kind LTC) exists — the only deposit on file is
the BTC one — yet approving an LTC deposit of 50.00 for user 0 is rejected
as already processed and credits nothing, because the code's idempotency
lookup ignores the crypto kind. -/
theorem C7_counterexample :
    (¬ ∃ t ∈ c7State.transactions, t.user_id = 0 ∧ t.amount = 50 ∧
        t.transaction_type = "deposit" ∧ t.status = "completed" ∧
        t.description = "Deposit via LTC") ∧
    (admin_approve_deposit c7State 0 50 "LTC").2 = .alreadyProcessed ∧
    (admin_approve_deposit c7State 0 50 "LTC").1.transactions
      = c7State.transactions ∧
    ((admin_approve_deposit c7State 0 50 "LTC").1.users 0).balance
      = (c7State.users 0).balance := by
  refine ⟨by decide, ?_, ?_, ?_⟩ <;>
    · simp only [c7State, admin_approve_deposit, initState]
      norm_num [updUser]

/-- Witness for C7: with no prior deposits, approving a 50.00 BTC deposit
for user 0 credits the balance by exactly 50.00 once. -/
theorem C7_approve_deposit_key_witness :
    ((admin_approve_deposit initState 0 50 "BTC").1.users 0).balance
      = (initState.users 0).balance + 50 ∧
    (admin_approve_deposit initState 0 50 "BTC").2 = .credited := by
  have h := (C7_approve_deposit_key initState 0 50 "BTC").2 (by decide)
  exact ⟨h.1, h.2.2.2⟩

/-- The full effect of a successful `accept_deal` as a state equation. -/
theorem accept_deal_spec (s : EscrowState) (u di : Nat) (deal : DealRec)
    (hd : s.deals.get? di = some deal) (hu : deal.seller_id = u)
    (hst : deal.status = .pending)
    (hb : deal.amount + calculate_fee deal.amount ≤
      (s.users deal.buyer_id).balance) :
    accept_deal s u di
      = { s with
          deals := s.deals.set di { deal with status := .funded },
          users := updUser s.users deal.buyer_id fun b =>
            { b with
              balance := b.balance - (deal.amount + calculate_fee deal.amount),
              escrowed_amount := b.escrowed_amount + deal.amount },
          transactions := s.transactions ++
            [⟨deal.buyer_id, deal.amount + calculate_fee deal.amount,
              "escrow_funded", "completed", ""⟩] } := by
  simp only [accept_deal, hd, if_pos (And.intro hu hst), if_pos hb]

/-- The full effect of a successful `mark_delivered` as a state equation. -/
theorem mark_delivered_spec (s : EscrowState) (u di : Nat) (deal : DealRec)
    (hd : s.deals.get? di = some deal) (hu : deal.seller_id = u)
    (hst : deal.status = .funded) :
    mark_delivered s u di
      = { s with deals := s.deals.set di { deal with status := .delivered } } := by
  simp only [mark_delivered, hd, if_pos (And.intro hu hst)]

/-- The full effect of a successful `release_payment` as a state equation. -/
theorem release_payment_spec (s : EscrowState) (u di : Nat) (deal : DealRec)
    (hd : s.deals.get? di = some deal) (hu : deal.buyer_id = u)
    (hst : deal.status = .delivered) :
    release_payment s u di
      = { s with
          deals := s.deals.set di { deal with status := .completed },
          users := updUser
            (updUser s.users deal.buyer_id fun b =>
              { b with escrowed_amount := b.escrowed_amount - deal.amount })
            deal.seller_id fun se =>
              { se with balance := se.balance + deal.amount } } := by
  simp only [release_payment, hd, if_pos (And.intro hu hst)]

/-- C3 amended: conservation holds for every deal completed through the
buyer-release path (accept, deliver, release) between two distinct parties:
the buyer's balance before the deal equals the balance after plus amount
plus fee, and the seller's balance after equals the balance before plus
amount.  (Deals completed through dispute resolution do not satisfy this —
see the counterexample.) -/
theorem C3_release_conservation (s : EscrowState) (di : Nat) (deal : DealRec)
    (hd : s.deals.get? di = some deal)
    (hst : deal.status = .pending)
    (hne : deal.seller_id ≠ deal.buyer_id)
    (hb : deal.amount + calculate_fee deal.amount ≤
      (s.users deal.buyer_id).balance) :
    (s.users deal.buyer_id).balance
      = ((release_payment (mark_delivered (accept_deal s deal.seller_id di)
          deal.seller_id di) deal.buyer_id di).users deal.buyer_id).balance
        + deal.amount + calculate_fee deal.amount ∧
    ((release_payment (mark_delivered (accept_deal s deal.seller_id di)
        deal.seller_id di) deal.buyer_id di).users deal.seller_id).balance
      = (s.users deal.seller_id).balance + deal.amount ∧
    (release_payment (mark_delivered (accept_deal s deal.seller_id di)
        deal.seller_id di) deal.buyer_id di).deals.get? di
      = some { deal with status := .completed } := by
  rw [accept_deal_spec s deal.seller_id di deal hd rfl hst hb]
  have hd1 : (s.deals.set di { deal with status := DealStatus.funded }).get? di
      = some { deal with status := DealStatus.funded } :=
    get?_set_self _ _ _ _ hd
  rw [mark_delivered_spec _ deal.seller_id di
    { deal with status := DealStatus.funded } (by simpa using hd1) rfl rfl]
  simp only []
  have hd2 : ((s.deals.set di { deal with status := DealStatus.funded }).set di
      { deal with status := DealStatus.delivered }).get? di
      = some { deal with status := DealStatus.delivered } :=
    get?_set_self _ _ _ _ hd1
  rw [release_payment_spec _ deal.buyer_id di
    { deal with status := DealStatus.delivered } (by simpa using hd2) rfl rfl]
  simp only []
  refine ⟨?_, ?_, ?_⟩
  · rw [updUser_other _ deal.seller_id deal.buyer_id _ fun hh => hne hh.symm,
      updUser_self, updUser_self]
    show (s.users deal.buyer_id).balance
      = (s.users deal.buyer_id).balance
        - (deal.amount + calculate_fee deal.amount) + deal.amount
        + calculate_fee deal.amount
    ring
  · rw [updUser_self, updUser_other _ deal.buyer_id deal.seller_id _ hne,
      updUser_other _ deal.buyer_id deal.seller_id _ hne]
  · exact get?_set_self _ _ _ _ hd2

/-- Buyer 0 with balance 200, seller 1, one Pending deal of amount 100. -/
def c3Base : EscrowState :=
  ⟨fun i => if i = 0 then ⟨200, 0⟩ else ⟨0, 0⟩,
    [⟨0, 1, 100, .pending⟩], [], []⟩

/-- `c3Base` driven to Disputed: accepted (funded), delivered, disputed. -/
def c3Disputed : EscrowState :=
  dispute_deal (mark_delivered (accept_deal c3Base 1 0) 1 0) 0 0

/-- `c3Disputed` resolved in favor of the buyer: the deal is Completed. -/
def c3Final : EscrowState := resolve_dispute_favor_buyer c3Disputed 0

/-- C3 counterexample: a deal of amount 100.00 completed through
favor-the-buyer dispute resolution.  The buyer started with 200.00 and ends
with 195.00, so buyer-before ≠ buyer-after + amount + fee (200 ≠ 300), and
the seller's balance is unchanged at 0.00 instead of increased by the
amount — the claimed conservation fails for this Completed deal. -/
theorem C3_counterexample :
    c3Final.deals.get? 0 = some ⟨0, 1, 100, .completed⟩ ∧
    (c3Base.users 0).balance = 200 ∧
    (c3Final.users 0).balance = 195 ∧
    (c3Base.users 1).balance = 0 ∧
    (c3Final.users 1).balance = 0 ∧
    ¬ ((c3Base.users 0).balance
        = (c3Final.users 0).balance + 100 + calculate_fee 100) ∧
    ¬ ((c3Final.users 1).balance = (c3Base.users 1).balance + 100) := by
  norm_num [c3Final, c3Disputed, c3Base, accept_deal, mark_delivered,
    dispute_deal, resolve_dispute_favor_buyer, calculate_fee, updUser]

/-- Witness for the amended C3 at Scenario A's numbers: amount 50, fee 5,
buyer balance 60 before and 5 after, seller balance 0 before and 50
after. -/
theorem C3_release_conservation_witness :
    (c5State.users 0).balance
      = ((release_payment (mark_delivered (accept_deal c5State 1 0) 1 0)
          0 0).users 0).balance + 50 + calculate_fee 50 ∧
    ((release_payment (mark_delivered (accept_deal c5State 1 0) 1 0)
        0 0).users 1).balance = (c5State.users 1).balance + 50 := by
  have h := C3_release_conservation c5State 0 ⟨0, 1, 50, .pending⟩
    (by simp [c5State]) rfl (by norm_num)
    (by norm_num [c5State, calculate_fee])
  exact ⟨h.1, h.2.1⟩

/-- C10: `User.available_balance` returns balance − escrowed_amount even
though every reservation already deducts the reserved amount from balance
(balance alone is the spendable funds); consequently it is negative for
every user whose escrow exceeds their balance — e.g. immediately after
reserving the entire balance for a withdrawal — and understates the
spendable funds whenever any escrow is held. -/
theorem C10_available_balance (u : UserAcct) (s : EscrowState) (i : Nat) :
    available_balance u = u.balance - u.escrowed_amount ∧
    (u.balance < u.escrowed_amount → available_balance u < 0) ∧
    (0 < u.escrowed_amount → available_balance u < u.balance) ∧
    (10 ≤ (s.users i).balance → (s.users i).escrowed_amount = 0 →
      ((request_withdrawal s i ((s.users i).balance)).users i).balance = 0 ∧
      available_balance
          ((request_withdrawal s i ((s.users i).balance)).users i)
        = -(s.users i).balance ∧
      available_balance
          ((request_withdrawal s i ((s.users i).balance)).users i) < 0) := by
  refine ⟨rfl, ?_, ?_, ?_⟩
  · intro h
    unfold available_balance
    linarith
  · intro h
    unfold available_balance
    linarith
  · intro hb he
    have h10 : ¬ (s.users i).balance < 10 := not_lt.mpr hb
    have hlt : ¬ (s.users i).balance < (s.users i).balance := lt_irrefl _
    unfold request_withdrawal
    rw [if_neg h10, if_neg hlt]
    simp only []
    rw [updUser_self]
    refine ⟨sub_self _, ?_, ?_⟩
    · show ((s.users i).balance - (s.users i).balance)
        - ((s.users i).escrowed_amount + (s.users i).balance)
        = -(s.users i).balance
      rw [he]
      ring
    · show ((s.users i).balance - (s.users i).balance)
        - ((s.users i).escrowed_amount + (s.users i).balance) < 0
      rw [he]
      linarith

/-- Witness for C10: a user with balance 20 and no escrow reserves the full
20 for a withdrawal; afterwards the balance is 0 while available_balance
is −20, i.e. negative. -/
theorem C10_available_balance_witness :
    available_balance ⟨3, 7⟩ = 3 - 7 ∧
    ((request_withdrawal c6Base 0
        ((c6Base.users 0).balance)).users 0).balance = 0 ∧
    available_balance ((request_withdrawal c6Base 0
        ((c6Base.users 0).balance)).users 0) = -(c6Base.users 0).balance ∧
    available_balance ((request_withdrawal c6Base 0
        ((c6Base.users 0).balance)).users 0) < 0 := by
  have h := C10_available_balance ⟨3, 7⟩ c6Base 0
  have h4 := h.2.2.2 (by norm_num [c6Base]) (by norm_num [c6Base])
  exact ⟨h.1, h4.1, h4.2.1, h4.2.2⟩

end EscrowBot
